import Mathlib

/-!
Verification of `core/dbt/parser/generic_test_builders.py`: a shallow embedding
of the generic-test declaration normalizer, config resolver, name synthesizer
and `TestBuilder` construction pipeline, together with theorems settling the
frozen claims about that code.

Python dynamic values are embedded as the inductive `Value`; Python dicts are
embedded as insertion-ordered association lists with (conceptually) distinct
keys.  Fallible code returns `Except DbtError`.  Mutation of the caller
argument in `extract_test_args` is made explicit by returning the post-call
state of the declaration mapping.
-/

/-- Embedding of the Python values that flow through the test builder:
`None`, booleans, integers, strings, lists or tuples, and dicts (as
insertion-ordered association lists with string keys). -/
inductive Value where
  | vnull
  | vbool (b : Bool)
  | vint (n : Int)
  | vstr (s : String)
  | vlist (elems : List Value)
  | vdict (entries : List (String × Value))

namespace Value

/-- Python truthiness of a value, as used by `if value:` tests. -/
def truthy : Value → Bool
  | .vnull => false
  | .vbool b => b
  | .vint n => n != 0
  | .vstr s => s != ""
  | .vlist xs => !xs.isEmpty
  | .vdict m => !m.isEmpty

end Value

/-- Dict read `d.get(k)` and `k in d`: the value at the first matching key. -/
def dictGet : List (String × Value) → String → Option Value
  | [], _ => none
  | (k', v) :: rest, k => if k' = k then some v else dictGet rest k

/-- Dict key removal, as performed by `d.pop(k, default)`; removes every
occurrence (a Python dict holds each key at most once). -/
def dictErase : List (String × Value) → String → List (String × Value)
  | [], _ => []
  | (k', v) :: rest, k => if k' = k then dictErase rest k else (k', v) :: dictErase rest k

/-- Dict assignment `d[k] = v`: replaces the value in place when the key is
present, otherwise appends the pair, preserving Python dict insertion order. -/
def dictSet : List (String × Value) → String → Value → List (String × Value)
  | [], k, v => [(k, v)]
  | (k', v') :: rest, k, v => if k' = k then (k, v) :: rest else (k', v') :: dictSet rest k v

/-- Dict merge `d.update(new)` and `\x7b**d, **new\x7d`: later entries override
in place, new keys are appended in order. -/
def dictUpdate (d new : List (String × Value)) : List (String × Value) :=
  new.foldl (fun acc kv => dictSet acc kv.1 kv.2) d

/-- Python repr of a string: quotes the string, preferring single quotes,
switching to double quotes when the string contains a single quote but no
double quote; escapes backslashes and the chosen quote.  Escaping of
non-printable characters is not modelled (no claim depends on it). -/
def pyReprString (s : String) : String :=
  let hasC := fun c => s.data.any (· = c)
  let quote : Char := if hasC '\x27' && !hasC '\x22' then '\x22' else '\x27'
  let body := s.data.flatMap fun c =>
    if c = '\\' then ['\\', '\\'] else if c = quote then ['\\', quote] else [c]
  String.mk (quote :: body ++ [quote])

mutual

/-- Python `repr` of a value; for containers this coincides with `str`. -/
def pyRepr : Value → String
  | .vnull => "None"
  | .vbool true => "True"
  | .vbool false => "False"
  | .vint n => toString n
  | .vstr s => pyReprString s
  | .vlist xs => "[" ++ String.intercalate ", " (pyReprList xs) ++ "]"
  | .vdict m => "\x7b" ++ String.intercalate ", " (pyReprEntries m) ++ "\x7d"

def pyReprList : List Value → List String
  | [] => []
  | v :: vs => pyRepr v :: pyReprList vs

def pyReprEntries : List (String × Value) → List String
  | [] => []
  | (k, v) :: rest => (pyReprString k ++ ": " ++ pyRepr v) :: pyReprEntries rest

end

/-- Python `str(part)` as applied in `synthesize_generic_test_names`: the
string itself for strings, `repr` otherwise (container elements are shown via
`repr`, exactly as `str` of a list or dict does). -/
def pyStr : Value → String
  | .vstr s => s
  | v => pyRepr v

/-- Membership of a character in an inclusive code-point range. -/
def charBetween (lo hi c : Char) : Bool := lo ≤ c && c ≤ hi

/-- Character class `[0-9a-zA-Z_]` of the cleaning regex. -/
def wordChar (c : Char) : Bool :=
  charBetween '0' '9' c || charBetween 'a' 'z' c || charBetween 'A' 'Z' c || c = '_'

/-- Replacement loop for `re.sub("[^0-9a-zA-Z_]+", "_", arg)`: every maximal
run of non-word characters becomes a single underscore.  The flag records
whether the previous character was part of such a run. -/
def cleanRuns : Bool → List Char → List Char
  | _, [] => []
  | inRun, c :: cs =>
    if wordChar c then c :: cleanRuns false cs
    else if inRun then cleanRuns true cs
    else '_' :: cleanRuns true cs

/-- Cleaning of one stringified argument by the regex substitution. -/
def cleanArg (s : String) : String := String.mk (cleanRuns false s.data)

/-- Hex digit characters in ascending order. -/
def hexDigits : List Char := "0123456789abcdef".data

def hexDigitChar (n : Nat) : Char := hexDigits.getD n '0'

/-- Fixed-width big-endian hex rendering of a natural number, `k` digits. -/
def hexChars : Nat → Nat → List Char
  | 0, _ => []
  | k + 1, n => hexChars k (n / 16) ++ [hexDigitChar (n % 16)]

/-- Modelled from the spec: `dbt.utils.md5` is imported by the source file but
its definition is not under `src/`; the spec describes it as a stable content
hash producing a fixed-width hex digest of 32 hex characters.  Embedded as a
deterministic 128-bit polynomial content hash rendered as 32 hex digits. -/
def md5 (s : String) : String :=
  String.mk (hexChars 32 (s.data.foldl (fun h c => (h * 131 + c.toNat) % 2 ^ 128) 5381))

/-- Python string slice `s[:n]` (by code points, as in Python). -/
def strTake (s : String) (n : Nat) : String := String.mk (s.data.take n)

/-- Argument-pair ordering by key, matching the iteration order of
`sorted(args)` over a Python dict (lexicographic string order on keys). -/
def sortedArgs (args : List (String × Value)) : List (String × Value) :=
  List.insertionSort (fun p q => p.1 ≤ q.1) args

/-- Flattening of one argument value inside the synthesizer loop: a dict
flattens to its values, a list or tuple to its elements, anything else is a
single scalar. -/
def flattenArgValue : Value → List Value
  | .vdict m => m.map Prod.snd
  | .vlist xs => xs
  | v => [v]

/-- Embedding of `synthesize_generic_test_names(test_type, test_name, args)`:
returns `(short_name, full_name)`. -/
def synthesize_generic_test_names (test_type test_name : String)
    (args : List (String × Value)) : String × String :=
  let flat_args : List String := (sortedArgs args).foldl
    (fun acc p =>
      -- the model is already embedded in the name, so skip it
      if p.1 = "model" then acc
      else acc ++ (flattenArgValue p.2).map pyStr) []
  let clean_flat_args := flat_args.map cleanArg
  let unique := String.intercalate "__" clean_flat_args
  let test_identifier := test_type ++ "_" ++ test_name
  let full_name := test_identifier ++ "_" ++ unique
  if 64 ≤ full_name.length then
    let test_trunc_identifier := strTake test_identifier 30
    let label := md5 full_name
    (test_trunc_identifier ++ "_" ++ label, full_name)
  else
    (full_name, full_name)

/-- Definition following the words of claim C1 (spec section 4.4) for the full
name: skip the key `model`; for each remaining key in lexicographic key order
flatten the value, stringify every flattened element, replace every maximal
run of characters outside `[0-9a-zA-Z_]` with one underscore, join the cleaned
tokens with a double underscore, and prepend the type and name. -/
def specFullName (testType testName : String) (args : List (String × Value)) : String :=
  let kept := (sortedArgs args).filter fun p => p.1 ≠ "model"
  let tokens := kept.flatMap fun p => (flattenArgValue p.2).map fun v => cleanArg (pyStr v)
  testType ++ "_" ++ testName ++ "_" ++ String.intercalate "__" tokens

/-- Character class `[a-zA-Z_]` opening an identifier in `TEST_NAME_PATTERN`. -/
def isIdentStart (c : Char) : Bool :=
  charBetween 'a' 'z' c || charBetween 'A' 'Z' c || c = '_'

/-- Character class `[0-9a-zA-Z_]` continuing an identifier. -/
def isIdentChar (c : Char) : Bool := isIdentStart c || charBetween '0' '9' c

/-- Embedding of `TEST_NAME_PATTERN.match(test_name)`: `re.match` anchors at
the start only and matches greedily, backtracking on the optional namespace
group.  Returns the `test_namespace` and `test_name` groups on success. -/
def matchTestName (s : String) : Option (Option String × String) :=
  match s.data with
  | [] => none
  | c :: _ =>
    if isIdentStart c then
      let w1 := s.data.takeWhile isIdentChar
      match s.data.dropWhile isIdentChar with
      | '.' :: d :: rest =>
        if isIdentStart d then
          some (some (String.mk w1), String.mk ((d :: rest).takeWhile isIdentChar))
        else some (none, String.mk w1)
      | _ => some (none, String.mk w1)
    else none

/-- A full identifier token `[a-zA-Z_][0-9a-zA-Z_]*` with nothing left over. -/
def isIdentToken : List Char → Bool
  | [] => false
  | c :: cs => isIdentStart c && cs.all isIdentChar

/-- Splitting a character list on dots. -/
def splitDots : List Char → List (List Char)
  | [] => [[]]
  | c :: cs =>
    let r := splitDots cs
    if c = '.' then [] :: r
    else match r with
      | [] => [[c]]
      | h :: t => (c :: h) :: t

/-- Definition following the words of claim C6: the token matches
`[namespace.]name` where both parts match `[a-zA-Z_][0-9a-zA-Z_]*`, with
nothing left over. -/
def fullPatternMatch (s : String) : Bool :=
  match splitDots s.data with
  | [nm] => isIdentToken nm
  | [ns, nm] => isIdentToken ns && isIdentToken nm
  | _ => false

/-- Errors raised by the embedded code.  The first eight model the dbt
exception classes imported by the source file; `pyTypeError` models a Python
`TypeError` or `AttributeError` arising from an operation on a value of the
wrong runtime type; `badTypeError` models the `TypeError` built by
`TestBuilder._bad_type`; `unboundLocalError` models the Python
`UnboundLocalError` raised when `build_model_str` reads `target_str` without
any branch having assigned it. -/
inductive DbtError where
  | testTypeError
  | testDefinitionDictLengthError
  | testArgsNotDictError
  | testNameNotStringError
  | testArgIncludesModelError
  | unexpectedTestNamePatternError
  | sameKeyNestedError
  | customMacroPopulatingConfigValueError
  | pyTypeError
  | badTypeError
  | unboundLocalError
  deriving DecidableEq, Repr

/-- The three supported target kinds of the builder, plus `other` standing for
a value of any unsupported kind.  `model` embeds `UnparsedModelUpdate`, `node`
embeds `UnparsedNodeUpdate`, `source` embeds `UnpatchedSourceDefinition` with
its source name and table name. -/
inductive Target where
  | model (name : String)
  | node (name : String)
  | source (sourceName tableName : String)
  | other
  deriving DecidableEq, Repr

/-- Modelled from the spec: the `name` attribute of the target classes is not
under `src/` (they live in `dbt.contracts.graph`); per the spec, the
name-synthesis target name of a model or node is its own name, and the spec
example for a source target uses the table name. -/
def Target.name : Target → String
  | .model n => n
  | .node n => n
  | .source _ t => t
  | .other => ""

/-- Truthiness of `self.version` (`if self.version:`): absent or empty is
falsy. -/
def versionTruthy : Option String → Bool
  | none => false
  | some v => v != ""

/-- The rendering collaborator `get_rendered(value, render_ctx, native=True)`
together with its context, taken as an opaque parameter; an error models the
`UndefinedMacroError` condition. -/
def RenderFn : Type := String → Except Unit Value

/-- The fixed allow-list `TestBuilder.CONFIG_ARGS`. -/
def CONFIG_ARGS : List String :=
  ["severity", "tags", "enabled", "where", "limit", "warn_if", "error_if",
   "fail_calc", "store_failures", "store_failures_as", "meta", "database",
   "schema", "alias"]

/-- Shape disambiguation of `extract_test_args` (the part before the argument
checks): yields the test-name value, the argument value, and the post-call
state of the caller entries (shape (a) pops `test_name` from the caller dict,
shape (b) leaves it untouched). -/
def extractShape (entries : List (String × Value)) :
    Except DbtError (Value × Value × List (String × Value)) :=
  if (dictGet entries "test_name").isSome then
    .ok ((dictGet entries "test_name").getD .vnull,
         .vdict (dictErase entries "test_name"),
         dictErase entries "test_name")
  else
    match entries with
    | [(k, v)] => .ok (.vstr k, v, entries)
    | _ => .error .testDefinitionDictLengthError

/-- Argument-phase of `extract_test_args`: type checks, deep copy (pure values
represent their own copy), column-name injection, and the legacy-versus-new
`arguments` property handling controlled by the process flag
`require_generic_test_arguments_property`.  Deprecation warnings are
fire-and-forget side effects and are not modelled. -/
def extractArgsPhase (requireArgumentsProperty : Bool)
    (test_name_v test_args_v : Value) (name : Option String) :
    Except DbtError (String × List (String × Value)) := do
  let test_args ← match test_args_v with
    | .vdict m => .ok m
    | _ => .error .testArgsNotDictError
  let test_name ← match test_name_v with
    | .vstr s => .ok s
    | _ => .error .testNameNotStringError
  let test_args := match name with
    | some n => dictSet test_args "column_name" (.vstr n)
    | none => test_args
  if requireArgumentsProperty then
    let argumentsV := (dictGet test_args "arguments").getD (.vdict [])
    let test_args := dictErase test_args "arguments"
    match argumentsV with
    | .vdict am => .ok (test_name, dictUpdate test_args am)
    | _ => .error .pyTypeError
  else
    .ok (test_name, test_args)

/-- Embedding of `TestBuilder.extract_test_args(data_test, name)`.  The third
component of the result is the post-call state of the caller-supplied
declaration value, making the mutation performed by `data_test.pop` in shape
(a) explicit. -/
def extract_test_args (requireArgumentsProperty : Bool) (data_test : Value)
    (name : Option String) :
    Except DbtError (String × List (String × Value) × Value) :=
  match data_test with
  | .vdict entries => do
    let (tnv, tav, post) ← extractShape entries
    let (tn, ta) ← extractArgsPhase requireArgumentsProperty tnv tav name
    .ok (tn, ta, .vdict post)
  | _ => .error .testTypeError

/-- Embedding of `TestBuilder.build_model_str`.  The dispatch has no final
else branch in the source, so an unsupported target kind leaves `target_str`
unassigned and the closing format line raises `UnboundLocalError`. -/
def build_model_str (target : Target) (version : Option String) :
    Except DbtError String := do
  let target_str : String ← match target with
    | .model n =>
      if versionTruthy version then
        .ok ("ref(\x27" ++ n ++ "\x27, version=\x27" ++ (version.getD "") ++ "\x27)")
      else
        .ok ("ref(\x27" ++ n ++ "\x27)")
    | .node n => .ok ("ref(\x27" ++ n ++ "\x27)")
    | .source s t => .ok ("source(\x27" ++ s ++ "\x27, \x27" ++ t ++ "\x27)")
    | .other => .error .unboundLocalError
  .ok ("\x7b\x7b get_where_subquery(" ++ target_str ++ ") \x7d\x7d")

/-- Substring containment on character lists, modelling Python `sub in s`. -/
def substrIn (needle : List Char) : List Char → Bool
  | [] => needle.isEmpty
  | c :: rest => List.isPrefixOf needle (c :: rest) || substrIn needle rest

/-- Python membership `key in container`, as applied to
`self.args["config"]`: key membership for dicts, element equality for lists
(a string compares equal only to an equal string), substring containment for
strings, `TypeError` otherwise. -/
def pyContainsKey : Value → String → Except DbtError Bool
  | .vdict m, k => .ok (dictGet m k).isSome
  | .vlist xs, k =>
    .ok (xs.any fun v => match v with | .vstr s => s = k | _ => false)
  | .vstr s, k => .ok (substrIn k.data s.data)
  | _, _ => .error .pyTypeError

/-- The loop body of `TestBuilder._process_legacy_args` over the allow-list:
pops each recognized key from the arguments, raises `SameKeyNestedError` when
the popped value is truthy and the key also appears inside the nested config,
falls back to popping the nested config entry when the popped value is falsy,
and records the chosen value (possibly `None`) under the key. -/
def legacyLoop : List String → List (String × Value) →
    Except DbtError (List (String × Value) × List (String × Value))
  | [], args => .ok ([], args)
  | key :: rest, args => do
    let value := (dictGet args key).getD .vnull
    let args := dictErase args key
    if value.truthy then
      match dictGet args "config" with
      | some cfgv => do
        let hit ← pyContainsKey cfgv key
        if hit then .error .sameKeyNestedError
        else do
          let (cfg, args') ← legacyLoop rest args
          .ok ((key, value) :: cfg, args')
      | none => do
        let (cfg, args') ← legacyLoop rest args
        .ok ((key, value) :: cfg, args')
    else
      match dictGet args "config" with
      | some (.vdict m) => do
        let value := (dictGet m key).getD .vnull
        let args := dictSet args "config" (.vdict (dictErase m key))
        let (cfg, args') ← legacyLoop rest args
        .ok ((key, value) :: cfg, args')
      | some _ => .error .pyTypeError
      | none => do
        let (cfg, args') ← legacyLoop rest args
        .ok ((key, value) :: cfg, args')

/-- Rendering of one config value inside `TestBuilder._render_values`: a
string goes through the renderer (an undefined reference becomes
`CustomMacroPopulatingConfigValueError`), anything else passes through. -/
def renderOne (render : RenderFn) : Value → Except DbtError Value
  | .vstr s =>
    match render s with
    | .ok v => .ok v
    | .error _ => .error .customMacroPopulatingConfigValueError
  | v => .ok v

/-- Embedding of `TestBuilder._render_values`: every value is rendered via
`renderOne` in iteration order and `None` results are dropped from the
resulting mapping. -/
def render_values (render : RenderFn) :
    List (String × Value) → Except DbtError (List (String × Value))
  | [] => .ok []
  | (key, value) :: rest =>
    match renderOne render value with
    | .error e => .error e
    | .ok v =>
      match render_values render rest with
      | .error e => .error e
      | .ok restR =>
        match v with
        | .vnull => .ok restR
        | v => .ok ((key, v) :: restR)

/-- Embedding of `TestBuilder._process_legacy_args`: the allow-list loop
followed by rendering; also returns the updated arguments. -/
def processLegacyArgs (render : RenderFn) (args : List (String × Value)) :
    Except DbtError (List (String × Value) × List (String × Value)) := do
  let (cfg, args') ← legacyLoop CONFIG_ARGS args
  let rendered ← render_values render cfg
  .ok (rendered, args')

/-- The nested-config step of `TestBuilder.__init__`: when a `config` argument
is present it is popped, rendered and merged over the legacy config (Python
iterates `.items()`, so a non-mapping raises). -/
def applyConfigBlock (render : RenderFn)
    (config args : List (String × Value)) :
    Except DbtError (List (String × Value) × List (String × Value)) :=
  match dictGet args "config" with
  | some (.vdict m) => do
    let r ← render_values render m
    .ok (dictUpdate config r, dictErase args "config")
  | some _ => .error .pyTypeError
  | none => .ok (config, args)

/-- The descriptor produced by a successful `TestBuilder.__init__`: the fields
the constructor assigns on `self`. -/
structure BuilderResult where
  args : List (String × Value)
  packageName : String
  name : String
  testNamespace : Option String
  config : List (String × Value)
  description : Value
  compiledName : Value
  fqnName : Value
  columnName : Option String
  version : Option String

/-- Embedding of `TestBuilder.get_synthetic_test_names`: picks the synthesis
inputs per target kind (this dispatch does end in `raise self._bad_type()`),
applies the namespace prefix, and calls the synthesizer. -/
def get_synthetic_test_names (target : Target) (version : Option String)
    (testNamespace : Option String) (testName : String)
    (args : List (String × Value)) : Except DbtError (String × String) := do
  let target_name := target.name
  let (name, target_name) ← match target with
    | .model n =>
      if versionTruthy version then .ok (testName, n ++ "_v" ++ (version.getD ""))
      else .ok (testName, target_name)
    | .node _ => .ok (testName, target_name)
    | .source _ _ => .ok ("source_" ++ testName, target_name)
    | .other => .error .badTypeError
  let name := match testNamespace with
    | some ns => ns ++ "_" ++ name
    | none => name
  .ok (synthesize_generic_test_names name target_name args)

/-- Tail of `TestBuilder.__init__` after config resolution: description
extraction, the user-supplied name override, name synthesis, and the alias
fallback when the synthesized short name differs from the full name. -/
def finishBuild (target : Target) (packageName : String)
    (columnName : Option String) (version : Option String)
    (testNamespace : Option String) (testName : String)
    (config args : List (String × Value)) : Except DbtError BuilderResult := do
  let packageName := match testNamespace with
    | some ns => ns
    | none => packageName
  let (description, args) := match dictGet args "description" with
    | some d => (d, dictErase args "description")
    | none => (Value.vstr "", args)
  match dictGet args "name" with
  | some nv =>
    .ok { args := dictErase args "name", packageName := packageName,
          name := testName, testNamespace := testNamespace, config := config,
          description := description, compiledName := nv, fqnName := nv,
          columnName := columnName, version := version }
  | none => do
    let (short_name, full_name) ←
      get_synthetic_test_names target version testNamespace testName args
    let config :=
      if short_name ≠ full_name ∧ (dictGet config "alias").isNone then
        dictSet config "alias" (.vstr short_name)
      else config
    .ok { args := args, packageName := packageName, name := testName,
          testNamespace := testNamespace, config := config,
          description := description, compiledName := .vstr short_name,
          fqnName := .vstr full_name, columnName := columnName,
          version := version }

/-- Steps of `TestBuilder.__init__` after a successful test-name pattern
match: legacy config resolution, nested config block, and the finish stage. -/
def buildAfterMatch (render : RenderFn) (target : Target)
    (packageName : String) (columnName : Option String)
    (version : Option String) (testNamespace : Option String)
    (testName : String) (args : List (String × Value)) :
    Except DbtError BuilderResult := do
  let (config, args) ← processLegacyArgs render args
  let (config, args) ← applyConfigBlock render config args
  finishBuild target packageName columnName version testNamespace testName config args

/-- Steps of `TestBuilder.__init__` after argument extraction: the reserved
`model` argument check, the model reference string, and the test-name pattern
match. -/
def buildCore (render : RenderFn) (testNameToken : String)
    (test_args : List (String × Value)) (target : Target)
    (packageName : String) (columnName : Option String)
    (version : Option String) : Except DbtError BuilderResult := do
  if (dictGet test_args "model").isSome then .error .testArgIncludesModelError
  else do
    let modelStr ← build_model_str target version
    let args := dictSet test_args "model" (.vstr modelStr)
    match matchTestName testNameToken with
    | none => .error .unexpectedTestNamePatternError
    | some (ns, nm) =>
      buildAfterMatch render target packageName columnName version ns nm args

/-- Embedding of `TestBuilder.__init__`: extraction followed by the
construction pipeline (the post-call state of the declaration is dropped, as
the constructor does not read it again). -/
def buildTestBuilder (requireArgumentsProperty : Bool) (render : RenderFn)
    (data_test : Value) (target : Target) (packageName : String)
    (columnName : Option String) (version : Option String) :
    Except DbtError BuilderResult := do
  let (tn, ta, _) ← extract_test_args requireArgumentsProperty data_test columnName
  buildCore render tn ta target packageName columnName version

/-- Renderer used in concrete witnesses: renders every string to itself. -/
def idRender : RenderFn := fun s => .ok (.vstr s)

/-- Whether a token begins with a character in `[a-zA-Z_]`; `re.match` of
`TEST_NAME_PATTERN` succeeds exactly on such tokens, since the pattern is
not anchored at the end. -/
def startsWithIdentChar (s : String) : Bool :=
  match s.data with
  | [] => false
  | c :: _ => isIdentStart c

/-- The popped legacy value of a recognized config key,
`self.args.pop(key, None)`. -/
def legacyVal (args : List (String × Value)) (k : String) : Value :=
  (dictGet args k).getD .vnull

/-- The nested `config` entry for a key, when the `config` argument is
present and is a mapping that holds the key. -/
def nestedVal (args : List (String × Value)) (k : String) : Option Value :=
  match dictGet args "config" with
  | some (.vdict m) => dictGet m k
  | _ => none

/-- The nested `config` argument, when present, is a mapping. -/
def configWF (args : List (String × Value)) : Prop :=
  dictGet args "config" = none ∨ ∃ m, dictGet args "config" = some (.vdict m)

/-- The value `_process_legacy_args` records for a recognized key before
rendering: the legacy value when truthy; otherwise the nested config entry
(defaulting to `None`) when the nested mapping is present; otherwise the
falsy legacy value itself. -/
def pickValue (args : List (String × Value)) (k : String) : Value :=
  if (legacyVal args k).truthy then legacyVal args k
  else match dictGet args "config" with
    | some (.vdict m) => (dictGet m k).getD .vnull
    | _ => legacyVal args k

/-- Projection of the compiled name out of a construction result. -/
def compiledOf : Except DbtError BuilderResult → Option Value
  | .ok b => some b.compiledName
  | .error _ => none

/-! ## Basic lemmas about the dict operations -/

theorem dictGet_eq_none_of_not_mem {m : List (String × Value)} {k : String}
    (h : k ∉ m.map Prod.fst) : dictGet m k = none := by
  induction m with
  | nil => rfl
  | cons p rest ih =>
    simp only [List.map_cons, List.mem_cons, not_or] at h
    have h1 : p.1 ≠ k := fun he => h.1 he.symm
    simp [dictGet, h1, ih h.2]

theorem dictErase_of_get_none {m : List (String × Value)} {k : String}
    (h : dictGet m k = none) : dictErase m k = m := by
  induction m with
  | nil => rfl
  | cons p rest ih =>
    cases p with
    | mk pk pv =>
      by_cases hk : pk = k
      · simp only [dictGet, if_pos hk] at h
        exact Option.noConfusion h
      · simp only [dictGet, if_neg hk] at h
        simp only [dictErase, if_neg hk, ih h]

theorem dictGet_erase_ne {m : List (String × Value)} {k k' : String}
    (h : k' ≠ k) : dictGet (dictErase m k') k = dictGet m k := by
  induction m with
  | nil => rfl
  | cons p rest ih =>
    cases p with
    | mk pk pv =>
      by_cases h1 : pk = k'
      · subst h1
        simp [dictErase, dictGet, h, ih]
      · simp only [dictErase, if_neg h1, dictGet]
        by_cases h2 : pk = k
        · simp only [if_pos h2]
        · simp only [if_neg h2, ih]

theorem dictGet_set_self {m : List (String × Value)} {k : String} {v : Value} :
    dictGet (dictSet m k v) k = some v := by
  induction m with
  | nil => simp [dictSet, dictGet]
  | cons p rest ih =>
    cases p with
    | mk pk pv =>
      by_cases h1 : pk = k <;> simp [dictSet, dictGet, h1, ih]

theorem dictGet_set_ne {m : List (String × Value)} {k k' : String} {v : Value}
    (h : k' ≠ k) : dictGet (dictSet m k' v) k = dictGet m k := by
  induction m with
  | nil => simp [dictSet, dictGet, h]
  | cons p rest ih =>
    cases p with
    | mk pk pv =>
      by_cases h1 : pk = k'
      · subst h1
        simp [dictSet, dictGet, h]
      · simp only [dictSet, if_neg h1, dictGet]
        by_cases h2 : pk = k
        · simp only [if_pos h2]
        · simp only [if_neg h2, ih]

/-! ## Basic lemmas about the fingerprint model -/

theorem hexChars_length : ∀ (k n : Nat), (hexChars k n).length = k := by
  intro k
  induction k with
  | zero => intro n; rfl
  | succ k ih => intro n; simp [hexChars, ih]

theorem hexDigitChar_mem (n : Nat) : hexDigitChar n ∈ hexDigits := by
  unfold hexDigitChar
  rcases Nat.lt_or_ge n hexDigits.length with h | h
  · rw [List.getD_eq_getElem _ _ h]
    exact List.getElem_mem h
  · rw [List.getD_eq_default _ _ h]
    decide

theorem hexChars_mem : ∀ (k n : Nat), ∀ c ∈ hexChars k n, c ∈ hexDigits := by
  intro k
  induction k with
  | zero => intro n c hc; simp [hexChars] at hc
  | succ k ih =>
    intro n c hc
    simp only [hexChars, List.mem_append, List.mem_singleton] at hc
    rcases hc with hc | hc
    · exact ih _ c hc
    · subst hc; exact hexDigitChar_mem _

theorem md5_length (s : String) : (md5 s).length = 32 := by
  simp [md5, String.length, hexChars_length]

theorem md5_mem_hexDigits (s : String) : ∀ c ∈ (md5 s).data, c ∈ hexDigits := by
  intro c hc
  exact hexChars_mem _ _ c hc

theorem strTake_length (s : String) (n : Nat) :
    (strTake s n).length = min n s.length := by
  show (s.data.take n).length = min n s.data.length
  simp

/-! ## Lemmas about the name synthesizer -/

theorem synth_snd (t n : String) (args : List (String × Value)) :
    (synthesize_generic_test_names t n args).2
      = t ++ "_" ++ n ++ "_" ++ String.intercalate "__"
          (((sortedArgs args).foldl
            (fun acc p => if p.1 = "model" then acc
              else acc ++ (flattenArgValue p.2).map pyStr) []).map cleanArg) := by
  dsimp only [synthesize_generic_test_names]
  split <;> rfl

theorem synth_short_props (t n : String) (args : List (String × Value)) :
    0 < (synthesize_generic_test_names t n args).1.length
    ∧ (synthesize_generic_test_names t n args).1.length < 64 := by
  have h1 : ("_" : String).length = 1 := rfl
  dsimp only [synthesize_generic_test_names]
  split
  · dsimp only
    simp only [String.length_append, strTake_length, md5_length, h1]
    have := Nat.min_le_left 30 (t ++ "_" ++ n).length
    omega
  · rename_i h
    dsimp only
    simp only [Nat.not_le] at h
    refine ⟨?_, h⟩
    simp only [String.length_append, h1]
    omega

theorem foldl_skip_model (l : List (String × Value)) (acc : List String) :
    l.foldl (fun acc p => if p.1 = "model" then acc
        else acc ++ (flattenArgValue p.2).map pyStr) acc
      = acc ++ (l.filter fun p => p.1 ≠ "model").flatMap
          (fun p => (flattenArgValue p.2).map pyStr) := by
  induction l generalizing acc with
  | nil => simp
  | cons p l ih =>
    by_cases h : p.1 = "model" <;>
      simp [h, ih, List.filter_cons, List.append_assoc]

/-- C1: for every argument mapping, `synthesize_generic_test_names` computes
the full name by skipping the `model` key, flattening each remaining value in
lexicographic key order, stringifying, cleaning runs of non-word characters to
single underscores, joining with double underscores and prefixing the type and
name; on the concrete example it returns the pair
`("unique_orders_id", "unique_orders_id")`. -/
theorem C1_full_name_algorithm :
    (∀ (t n : String) (args : List (String × Value)),
        (synthesize_generic_test_names t n args).2 = specFullName t n args)
    ∧ synthesize_generic_test_names "unique" "orders" [("column_name", .vstr "id")]
        = ("unique_orders_id", "unique_orders_id") := by
  constructor
  · intro t n args
    rw [synth_snd]
    dsimp only [specFullName]
    rw [foldl_skip_model]
    simp [List.map_flatMap, Function.comp_def]
  · decide

/-! ## C2: the short-name length bound -/

/-- C2 (amended): the short name is always strictly shorter than 64
characters; when the full name has 64 or more characters the short name is
the first 30 characters of the identifier, an underscore, and the 32
hex-character fingerprint of the full name, and differs from the full name;
the short name has exactly 63 characters in that case provided the identifier
itself has at least 30 characters (which the claim example presupposes). -/
theorem C2_short_name_bound (t n : String) (args : List (String × Value)) :
    (synthesize_generic_test_names t n args).1.length < 64
    ∧ (64 ≤ (synthesize_generic_test_names t n args).2.length →
        (synthesize_generic_test_names t n args).1
            = strTake (t ++ "_" ++ n) 30 ++ "_"
                ++ md5 (synthesize_generic_test_names t n args).2
          ∧ (md5 (synthesize_generic_test_names t n args).2).length = 32
          ∧ (∀ c ∈ (md5 (synthesize_generic_test_names t n args).2).data,
                c ∈ hexDigits)
          ∧ (synthesize_generic_test_names t n args).1
              ≠ (synthesize_generic_test_names t n args).2
          ∧ (30 ≤ (t ++ "_" ++ n).length →
              (synthesize_generic_test_names t n args).1.length = 63)) := by
  have hlt := (synth_short_props t n args).2
  refine ⟨hlt, fun h64 => ?_⟩
  have hne : (synthesize_generic_test_names t n args).1
      ≠ (synthesize_generic_test_names t n args).2 := by
    intro he
    rw [he] at hlt
    omega
  have heq : (synthesize_generic_test_names t n args).1
      = strTake (t ++ "_" ++ n) 30 ++ "_"
          ++ md5 (synthesize_generic_test_names t n args).2 := by
    revert h64 hne hlt
    dsimp only [synthesize_generic_test_names]
    split
    · intro _ _ _; rfl
    · intro h64 hlt _
      dsimp only at h64 hlt
      omega
  refine ⟨heq, md5_length _, md5_mem_hexDigits _, hne, fun h30 => ?_⟩
  rw [heq]
  have h1 : ("_" : String).length = 1 := rfl
  simp only [String.length_append, strTake_length, md5_length, h1] at h30 ⊢
  omega

/-- C2 counterexample: with test type `t` and test name `n` (identifier of 3
characters) and one 66-character argument, the full name has exactly 70
characters but the short name has 36 characters, not 63 as the claim states. -/
theorem C2_counterexample :
    (synthesize_generic_test_names "t" "n"
        [("a", .vstr (String.mk (List.replicate 66 'x')))]).2.length = 70
    ∧ (synthesize_generic_test_names "t" "n"
        [("a", .vstr (String.mk (List.replicate 66 'x')))]).1.length = 36
    ∧ ¬ (synthesize_generic_test_names "t" "n"
        [("a", .vstr (String.mk (List.replicate 66 'x')))]).1.length = 63 := by
  refine ⟨by decide, by decide, by decide⟩

/-- Closed instance of `C2_short_name_bound`: a 30-character test type makes
the identifier at least 30 characters long, and a long argument pushes the
full name past 64 characters, so the short name has exactly 63 characters. -/
theorem C2_witness :
    (synthesize_generic_test_names "abcdefghijklmnopqrstuvwxyzabc" "orders"
        [("a", .vstr (String.mk (List.replicate 66 'x')))]).1.length = 63 :=
  ((C2_short_name_bound "abcdefghijklmnopqrstuvwxyzabc" "orders"
      [("a", .vstr (String.mk (List.replicate 66 'x')))]).2
    (by decide)).2.2.2.2 (by decide)

/-! ## C5: determinism of the name synthesizer -/

theorem sortedArgs_perm_eq (l₁ l₂ : List (String × Value)) (hp : l₁.Perm l₂)
    (hnd : (l₁.map Prod.fst).Nodup) : sortedArgs l₁ = sortedArgs l₂ := by
  haveI : IsTotal (String × Value) (fun p q => p.1 ≤ q.1) :=
    ⟨fun a b => le_total a.1 b.1⟩
  haveI : IsTrans (String × Value) (fun p q => p.1 ≤ q.1) :=
    ⟨fun a b c h1 h2 => le_trans h1 h2⟩
  haveI : IsAntisymm (String × Value) (fun p q => p.1 < q.1) :=
    ⟨fun a b h1 h2 => absurd (lt_trans h1 h2) (lt_irrefl _)⟩
  have hperm : List.Perm (sortedArgs l₁) (sortedArgs l₂) :=
    (List.perm_insertionSort _ l₁).trans (hp.trans (List.perm_insertionSort _ l₂).symm)
  have hnd₂ : (l₂.map Prod.fst).Nodup := ((hp.map Prod.fst).nodup_iff).mp hnd
  have hs₁ := List.sorted_insertionSort (fun p q : String × Value => p.1 ≤ q.1) l₁
  have hs₂ := List.sorted_insertionSort (fun p q : String × Value => p.1 ≤ q.1) l₂
  have hn₁ : ((sortedArgs l₁).map Prod.fst).Nodup :=
    (((List.perm_insertionSort _ l₁).map Prod.fst).nodup_iff).mpr hnd
  have hn₂ : ((sortedArgs l₂).map Prod.fst).Nodup :=
    (((List.perm_insertionSort _ l₂).map Prod.fst).nodup_iff).mpr hnd₂
  have strict : ∀ (l : List (String × Value)),
      List.Sorted (fun p q : String × Value => p.1 ≤ q.1) l →
      (l.map Prod.fst).Nodup →
      List.Sorted (fun p q : String × Value => p.1 < q.1) l := by
    intro l hs hn
    have hne : l.Pairwise fun p q : String × Value => p.1 ≠ q.1 :=
      (List.pairwise_map).mp hn
    exact (hs.and hne).imp fun h => lt_of_le_of_ne h.1 h.2
  exact List.eq_of_perm_of_sorted hperm (strict _ hs₁ hn₁) (strict _ hs₂ hn₂)

/-- C5: the name synthesizer is deterministic: two extensionally equal
argument mappings (the same key-value associations in any construction
order, keys distinct) yield the identical (short, full) name pair. -/
theorem C5_deterministic (t n : String) (args1 args2 : List (String × Value))
    (hp : args1.Perm args2) (hnd : (args1.map Prod.fst).Nodup) :
    synthesize_generic_test_names t n args1
      = synthesize_generic_test_names t n args2 := by
  dsimp only [synthesize_generic_test_names]
  rw [sortedArgs_perm_eq args1 args2 hp hnd]

/-- Closed instance of `C5_deterministic`: the same two associations listed
in the two possible orders give the same name pair. -/
theorem C5_witness :
    synthesize_generic_test_names "unique" "t" [("b", .vint 1), ("a", .vint 2)]
      = synthesize_generic_test_names "unique" "t" [("a", .vint 2), ("b", .vint 1)] :=
  C5_deterministic "unique" "t" _ _ (List.Perm.swap _ _ _) (by decide)

/-! ## C9: the reserved model argument -/

/-- C9: whenever the extracted argument mapping contains the key `model`,
construction fails with `TestArgIncludesModelError`, for every target value
(in particular for all three supported target kinds). -/
theorem C9_reserved_model_argument (flags : Bool) (render : RenderFn)
    (decl : Value) (target : Target) (pkg : String) (col ver : Option String)
    (tn : String) (args : List (String × Value)) (post : Value)
    (hx : extract_test_args flags decl col = .ok (tn, args, post))
    (hm : (dictGet args "model").isSome = true) :
    buildTestBuilder flags render decl target pkg col ver
      = .error .testArgIncludesModelError := by
  simp [buildTestBuilder, hx, bind, Except.bind, buildCore, hm]

/-- Closed instance of `C9_reserved_model_argument` at a source target. -/
theorem C9_witness :
    buildTestBuilder false idRender
        (.vdict [("unique", .vdict [("model", .vint 1)])])
        (.source "raw" "orders") "pkg" none none
      = .error .testArgIncludesModelError :=
  C9_reserved_model_argument false idRender _ _ "pkg" none none
    "unique" [("model", .vint 1)] (.vdict [("unique", .vdict [("model", .vint 1)])])
    rfl rfl

/-! ## C8: unsupported target kinds -/

/-- C8 (amended): for a target of an unsupported kind, construction always
fails, and as soon as extraction succeeds and the reserved-argument check
passes it fails with the `UnboundLocalError` arising in `build_model_str`
(whose dispatch has no else branch), not with the designated `TypeError`
built by `_bad_type`, which is only raised in `get_synthetic_test_names`,
code that construction never reaches for such a target. -/
theorem C8_unsupported_target (flags : Bool) (render : RenderFn) (decl : Value)
    (pkg : String) (col ver : Option String) :
    (∃ e, buildTestBuilder flags render decl .other pkg col ver = .error e)
    ∧ (∀ tn args post,
        extract_test_args flags decl col = .ok (tn, args, post) →
        dictGet args "model" = none →
        buildTestBuilder flags render decl .other pkg col ver
          = .error .unboundLocalError) := by
  constructor
  · cases hx : extract_test_args flags decl col with
    | error e => exact ⟨e, by simp [buildTestBuilder, hx, bind, Except.bind]⟩
    | ok t =>
      obtain ⟨tn, args, post⟩ := t
      by_cases hm : (dictGet args "model").isSome
      · exact ⟨.testArgIncludesModelError,
          by simp [buildTestBuilder, hx, bind, Except.bind, buildCore, hm]⟩
      · exact ⟨.unboundLocalError,
          by simp [buildTestBuilder, hx, bind, Except.bind, buildCore, hm,
                   build_model_str]⟩
  · intro tn args post hx hm
    have hm' : (dictGet args "model").isSome = false := by simp [hm]
    simp [buildTestBuilder, hx, bind, Except.bind, buildCore, hm',
          build_model_str]

/-- C8 counterexample: at a concrete declaration and an unsupported target,
construction fails with `UnboundLocalError`, which is not the designated
unsupported-target-kind error built by `_bad_type`. -/
theorem C8_counterexample :
    buildTestBuilder false idRender (.vdict [("unique", .vdict [])])
        .other "pkg" none none = .error .unboundLocalError
    ∧ DbtError.unboundLocalError ≠ DbtError.badTypeError := by
  exact ⟨rfl, by decide⟩

/-- Closed instance of `C8_unsupported_target`. -/
theorem C8_witness :
    buildTestBuilder true idRender (.vdict [("not_null", .vdict [])])
        .other "p" none none = .error .unboundLocalError :=
  (C8_unsupported_target true idRender (.vdict [("not_null", .vdict [])])
      "p" none none).2 "not_null" [] (.vdict [("not_null", .vdict [])]) rfl rfl

/-! ## C10: mutation of the caller declaration by extraction -/

theorem extractShape_post (m : List (String × Value)) (tnv tav : Value)
    (p : List (String × Value)) (h : extractShape m = .ok (tnv, tav, p)) :
    p = dictErase m "test_name" := by
  unfold extractShape at h
  cases hg : dictGet m "test_name" with
  | some v =>
    rw [hg] at h
    simp only [Option.isSome_some, if_true] at h
    cases h
    rfl
  | none =>
    rw [hg] at h
    simp only [Option.isSome_none, Bool.false_eq_true, if_false] at h
    rw [dictErase_of_get_none hg]
    match m, h with
    | [(k, v)], h => cases h; rfl

/-- C10 (amended): on every successful extraction the post-call state of the
caller-supplied declaration mapping is the original mapping with the
`test_name` key removed: shape (b) leaves it unmodified, while shape (a)
mutates it by popping `test_name`.  The returned argument mapping itself is a
deep copy (pure values in the embedding). -/
theorem C10_extraction_post_state (flags : Bool) (m : List (String × Value))
    (col : Option String) (tn : String) (args : List (String × Value))
    (post : Value)
    (hx : extract_test_args flags (.vdict m) col = .ok (tn, args, post)) :
    post = .vdict (dictErase m "test_name") := by
  unfold extract_test_args at hx
  dsimp only at hx
  cases hs : extractShape m with
  | error e => rw [hs] at hx; exact Except.noConfusion hx
  | ok t =>
    obtain ⟨tnv, tav, p⟩ := t
    rw [hs] at hx
    simp only [bind, Except.bind] at hx
    cases hph : extractArgsPhase flags tnv tav col with
    | error e => rw [hph] at hx; exact Except.noConfusion hx
    | ok q =>
      obtain ⟨tn', ta'⟩ := q
      rw [hph] at hx
      cases hx
      rw [extractShape_post m tnv tav p hs]

/-- C10 counterexample: a shape (a) declaration is mutated by extraction: the
`test_name` entry is removed from the caller-supplied mapping. -/
theorem C10_counterexample :
    extract_test_args false
        (.vdict [("test_name", .vstr "unique"), ("x", .vint 1)]) none
      = .ok ("unique", [("x", .vint 1)], .vdict [("x", .vint 1)])
    ∧ Value.vdict [("x", .vint 1)]
        ≠ Value.vdict [("test_name", .vstr "unique"), ("x", .vint 1)] := by
  refine ⟨rfl, fun h => ?_⟩
  injection h with h'
  simp at h'

/-- Closed instance of `C10_extraction_post_state` at a shape (b)
declaration, whose post-call state equals the original mapping. -/
theorem C10_witness :
    Value.vdict [("unique", .vdict [("column_name", .vstr "id")])]
      = .vdict (dictErase [("unique", .vdict [("column_name", .vstr "id")])]
          "test_name") :=
  C10_extraction_post_state false
    [("unique", .vdict [("column_name", .vstr "id")])] none
    "unique" [("column_name", .vstr "id")]
    (.vdict [("unique", .vdict [("column_name", .vstr "id")])]) rfl

/-! ## C4: equivalence of the two declaration shapes -/

/-- C4: a shape (a) declaration (a mapping with a `test_name` key and the
remaining keys as arguments) and a shape (b) declaration (a single-key
mapping from the test-name token to the argument mapping) encoding the same
logical test construct the very same descriptor, in particular equal `args`
and equal `config`. -/
theorem C4_shape_equivalence (flags : Bool) (render : RenderFn) (tok : String)
    (rest : List (String × Value)) (target : Target) (pkg : String)
    (col ver : Option String) (h1 : tok ≠ "test_name")
    (h2 : "test_name" ∉ rest.map Prod.fst) :
    buildTestBuilder flags render (.vdict (("test_name", .vstr tok) :: rest))
        target pkg col ver
      = buildTestBuilder flags render (.vdict [(tok, .vdict rest)])
        target pkg col ver := by
  have hga : dictGet (("test_name", Value.vstr tok) :: rest) "test_name"
      = some (.vstr tok) := by simp [dictGet]
  have hea : dictErase (("test_name", Value.vstr tok) :: rest) "test_name"
      = rest := by
    simp [dictErase, dictErase_of_get_none (dictGet_eq_none_of_not_mem h2)]
  have hgb : dictGet [(tok, Value.vdict rest)] "test_name" = none := by
    simp [dictGet, h1]
  have hsa : extractShape (("test_name", Value.vstr tok) :: rest)
      = .ok (.vstr tok, .vdict rest, rest) := by
    unfold extractShape
    rw [hga, hea]
    simp
  have hsb : extractShape [(tok, Value.vdict rest)]
      = .ok (.vstr tok, .vdict rest, [(tok, Value.vdict rest)]) := by
    unfold extractShape
    rw [hgb]
    simp
  unfold buildTestBuilder extract_test_args
  dsimp only
  rw [hsa, hsb]
  simp only [bind, Except.bind]
  cases hph : extractArgsPhase flags (.vstr tok) (.vdict rest) col with
  | error e => rfl
  | ok q => cases q; rfl

/-- Closed instance of `C4_shape_equivalence`. -/
theorem C4_witness :
    buildTestBuilder false idRender
        (.vdict [("test_name", .vstr "unique"), ("column_name", .vstr "id")])
        (.node "orders") "pkg" none none
      = buildTestBuilder false idRender
        (.vdict [("unique", .vdict [("column_name", .vstr "id")])])
        (.node "orders") "pkg" none none :=
  C4_shape_equivalence false idRender "unique" [("column_name", .vstr "id")]
    (.node "orders") "pkg" none none (by decide) (by decide)

/-! ## Helpers for reasoning about the Except pipeline -/

theorem bind_ok_iff {e α β : Type} (x : Except e α) (f : α → Except e β)
    (b : β) : (x >>= f) = .ok b ↔ ∃ a, x = .ok a ∧ f a = .ok b := by
  cases x <;> simp [bind, Except.bind]

theorem matchTestName_isSome (s : String) :
    (matchTestName s).isSome = startsWithIdentChar s := by
  unfold matchTestName startsWithIdentChar
  cases hd : s.data with
  | nil => rfl
  | cons c cs =>
    by_cases hc : isIdentStart c
    · simp only [hc, if_true]
      split <;> first
        | rfl
        | (split <;> rfl)
    · simp [hc]

theorem matchTestName_none_iff (s : String) :
    matchTestName s = none ↔ startsWithIdentChar s = false := by
  rw [← matchTestName_isSome]
  cases matchTestName s <;> simp

theorem get_synthetic_ok (target : Target) (ver ns : Option String)
    (nm : String) (args : List (String × Value)) (ht : target ≠ .other) :
    ∃ x y, get_synthetic_test_names target ver ns nm args
      = .ok (synthesize_generic_test_names x y args) := by
  cases target with
  | model n =>
    by_cases hv : versionTruthy ver
    · refine ⟨match ns with | some s => s ++ "_" ++ nm | none => nm,
        n ++ "_v" ++ ver.getD "", ?_⟩
      simp [get_synthetic_test_names, hv, bind, Except.bind]
    · refine ⟨match ns with | some s => s ++ "_" ++ nm | none => nm,
        Target.name (.model n), ?_⟩
      simp [get_synthetic_test_names, hv, bind, Except.bind]
  | node n =>
    exact ⟨match ns with | some s => s ++ "_" ++ nm | none => nm,
      Target.name (.node n), by simp [get_synthetic_test_names, bind, Except.bind]⟩
  | source sn tn =>
    exact ⟨match ns with
        | some s => s ++ "_" ++ ("source_" ++ nm) | none => "source_" ++ nm,
      Target.name (.source sn tn),
      by simp [get_synthetic_test_names, bind, Except.bind]⟩
  | other => exact absurd rfl ht

theorem finishBuild_compiled (target : Target) (pkg : String)
    (col ver : Option String) (ns : Option String) (nm : String)
    (cfg args : List (String × Value))
    (ht : target ≠ .other) (hname : dictGet args "name" = none) :
    ∃ b, finishBuild target pkg col ver ns nm cfg args = .ok b
      ∧ b.testNamespace = ns ∧ b.name = nm
      ∧ ∃ x y zs, b.compiledName = .vstr ((synthesize_generic_test_names x y zs).1)
        ∧ b.fqnName = .vstr ((synthesize_generic_test_names x y zs).2) := by
  unfold finishBuild
  cases hd : dictGet args "description" with
  | some d =>
    have hname2 : dictGet (dictErase args "description") "name" = none := by
      rw [dictGet_erase_ne (by decide)]
      exact hname
    obtain ⟨x, y, hsyn⟩ :=
      get_synthetic_ok target ver ns nm (dictErase args "description") ht
    dsimp only
    rw [hname2, hsyn]
    exact ⟨_, rfl, rfl, rfl, x, y, dictErase args "description", rfl, rfl⟩
  | none =>
    obtain ⟨x, y, hsyn⟩ := get_synthetic_ok target ver ns nm args ht
    dsimp only
    rw [hname, hsyn]
    exact ⟨_, rfl, rfl, rfl, x, y, args, rfl, rfl⟩

/-! ## C6: the test-name pattern is matched as a prefix, not fully -/

/-- C6 (amended): for a single-key declaration with empty arguments,
construction fails with `UnexpectedTestNamePatternError` exactly when
`re.match` of `TEST_NAME_PATTERN` fails, which happens exactly when the token
is empty or does not start with a character in `[a-zA-Z_]` (the pattern is
matched as a prefix, not against the whole token); on a match the greedy
prefix parse of the namespace and name groups is stored on the descriptor. -/
theorem C6_test_name_pattern (render : RenderFn) (pkg : String) (tok : String)
    (h : tok ≠ "test_name") :
    (buildTestBuilder false render (.vdict [(tok, .vdict [])]) (.node "t") pkg
        none none = .error .unexpectedTestNamePatternError
      ↔ matchTestName tok = none)
    ∧ (∀ ns nm, matchTestName tok = some (ns, nm) →
        ∃ b, buildTestBuilder false render (.vdict [(tok, .vdict [])])
            (.node "t") pkg none none = .ok b
          ∧ b.testNamespace = ns ∧ b.name = nm)
    ∧ (matchTestName tok = none ↔ startsWithIdentChar tok = false) := by
  have hgb : dictGet [(tok, Value.vdict [])] "test_name" = none := by
    simp [dictGet, h]
  have hsb : extractShape [(tok, Value.vdict [])]
      = .ok (.vstr tok, .vdict [], [(tok, Value.vdict [])]) := by
    unfold extractShape
    rw [hgb]
    simp
  have hext : extract_test_args false (.vdict [(tok, .vdict [])]) none
      = .ok (tok, [], .vdict [(tok, Value.vdict [])]) := by
    unfold extract_test_args
    dsimp only
    rw [hsb]
    rfl
  have hcore : buildTestBuilder false render (.vdict [(tok, .vdict [])])
      (.node "t") pkg none none
      = (match matchTestName tok with
          | none => .error .unexpectedTestNamePatternError
          | some (ns, nm) => buildAfterMatch render (.node "t") pkg none none
              ns nm [("model",
                .vstr "\x7b\x7b get_where_subquery(ref(\x27t\x27)) \x7d\x7d")]) := by
    unfold buildTestBuilder
    dsimp only
    rw [hext]
    simp only [bind, Except.bind]
    rfl
  have hpart2 : ∀ ns nm, matchTestName tok = some (ns, nm) →
      ∃ b, buildTestBuilder false render (.vdict [(tok, .vdict [])])
          (.node "t") pkg none none = .ok b
        ∧ b.testNamespace = ns ∧ b.name = nm := by
    intro ns nm hm
    have hbam : buildAfterMatch render (.node "t") pkg none none ns nm
        [("model", .vstr "\x7b\x7b get_where_subquery(ref(\x27t\x27)) \x7d\x7d")]
        = finishBuild (.node "t") pkg none none ns nm []
          [("model",
            .vstr "\x7b\x7b get_where_subquery(ref(\x27t\x27)) \x7d\x7d")] := rfl
    obtain ⟨b, hb, hns, hnm, _⟩ := finishBuild_compiled (.node "t") pkg none none
      ns nm []
      [("model", .vstr "\x7b\x7b get_where_subquery(ref(\x27t\x27)) \x7d\x7d")]
      (fun hh => Target.noConfusion hh) (by simp [dictGet])
    refine ⟨b, ?_, hns, hnm⟩
    rw [hcore, hm]
    dsimp only
    rw [hbam]
    exact hb
  refine ⟨?_, hpart2, matchTestName_none_iff tok⟩
  constructor
  · intro he
    cases hm : matchTestName tok with
    | none => rfl
    | some p =>
      obtain ⟨ns, nm⟩ := p
      obtain ⟨b, hb, _, _⟩ := hpart2 ns nm hm
      rw [hb] at he
      exact Except.noConfusion he
  · intro hn
    rw [hcore, hn]

/-- C6 counterexample: the token `foo-bar` does not fully match
`[namespace.]name` (the suffix `-bar` is left over), yet construction
succeeds and stores the prefix parse `foo` as the test name, so construction
failure is not equivalent to full-pattern mismatch. -/
theorem C6_counterexample :
    fullPatternMatch "foo-bar" = false
    ∧ (buildTestBuilder false idRender (.vdict [("foo-bar", .vdict [])])
        (.node "t") "pkg" none none).isOk = true
    ∧ (buildTestBuilder false idRender (.vdict [("foo-bar", .vdict [])])
        (.node "t") "pkg" none none).toOption.map BuilderResult.name
      = some "foo" := by
  refine ⟨by decide, by decide, by decide⟩

/-- Closed instance of `C6_test_name_pattern` at the dotted token `pkg.eq`. -/
theorem C6_witness :
    ∃ b, buildTestBuilder false idRender (.vdict [("pkg.eq", .vdict [])])
        (.node "t") "p" none none = .ok b
      ∧ b.testNamespace = some "pkg" ∧ b.name = "eq" :=
  (C6_test_name_pattern idRender "p" "pkg.eq" (by decide)).2.1
    (some "pkg") "eq" (by decide)

/-! ## Lemmas about the legacy config loop -/

theorem legacyVal_erase_ne {args : List (String × Value)} {key k : String}
    (h : key ≠ k) : legacyVal (dictErase args key) k = legacyVal args k := by
  unfold legacyVal
  rw [dictGet_erase_ne h]

theorem nestedVal_erase {args : List (String × Value)} {key : String}
    (h : key ≠ "config") (k : String) :
    nestedVal (dictErase args key) k = nestedVal args k := by
  unfold nestedVal
  rw [dictGet_erase_ne h]

theorem configWF_erase {args : List (String × Value)} {key : String}
    (h : key ≠ "config") (hwf : configWF args) :
    configWF (dictErase args key) := by
  unfold configWF at hwf ⊢
  rw [dictGet_erase_ne h]
  exact hwf

theorem nestedVal_setConfig {args : List (String × Value)}
    {m' : List (String × Value)} (k : String) :
    nestedVal (dictSet args "config" (.vdict m')) k = dictGet m' k := by
  unfold nestedVal
  rw [dictGet_set_self]

theorem configWF_setConfig {args m' : List (String × Value)} :
    configWF (dictSet args "config" (.vdict m')) :=
  Or.inr ⟨m', dictGet_set_self⟩

theorem pickValue_erase {args : List (String × Value)} {key k : String}
    (h1 : key ≠ k) (h2 : key ≠ "config") :
    pickValue (dictErase args key) k = pickValue args k := by
  unfold pickValue legacyVal
  rw [dictGet_erase_ne h1, dictGet_erase_ne h2]

theorem pickValue_step {args m : List (String × Value)} {key k : String}
    (h1 : key ≠ k) (h3 : k ≠ "config")
    (hm : dictGet args "config" = some (.vdict m)) :
    pickValue (dictSet (dictErase args key) "config"
        (.vdict (dictErase m key))) k
      = pickValue args k := by
  unfold pickValue legacyVal
  rw [dictGet_set_ne (fun he => h3 he.symm), dictGet_erase_ne h1,
      dictGet_set_self, hm]
  dsimp only
  rw [dictGet_erase_ne h1]

theorem legacyLoop_preserves : ∀ (keys : List String)
    (args cfg args' : List (String × Value)),
    legacyLoop keys args = .ok (cfg, args') →
    ∀ k, k ∉ keys → k ≠ "config" → dictGet args' k = dictGet args k := by
  intro keys
  induction keys with
  | nil =>
    intro args cfg args' h k _ _
    cases h
    rfl
  | cons key rest ih =>
    intro args cfg args' h k hk hkc
    have hkne : key ≠ k := fun he => hk (he ▸ List.mem_cons_self _ _)
    have hkrest : k ∉ rest := fun hm => hk (List.mem_cons_of_mem _ hm)
    unfold legacyLoop at h
    dsimp only at h
    split at h
    · -- truthy legacy value
      split at h
      · -- nested config present
        rw [bind_ok_iff] at h
        obtain ⟨hit, hpc, h⟩ := h
        split at h
        · exact Except.noConfusion h
        · rw [bind_ok_iff] at h
          obtain ⟨⟨cfg2, args2⟩, hloop, h⟩ := h
          cases h
          rw [ih _ _ _ hloop k hkrest hkc]
          exact dictGet_erase_ne hkne
      · -- no nested config
        rw [bind_ok_iff] at h
        obtain ⟨⟨cfg2, args2⟩, hloop, h⟩ := h
        cases h
        rw [ih _ _ _ hloop k hkrest hkc]
        exact dictGet_erase_ne hkne
    · -- falsy legacy value
      split at h
      · -- nested config is a mapping
        rw [bind_ok_iff] at h
        obtain ⟨⟨cfg2, args2⟩, hloop, h⟩ := h
        cases h
        rw [ih _ _ _ hloop k hkrest hkc]
        rw [dictGet_set_ne (fun he => hkc he.symm)]
        exact dictGet_erase_ne hkne
      · exact Except.noConfusion h
      · -- no nested config
        rw [bind_ok_iff] at h
        obtain ⟨⟨cfg2, args2⟩, hloop, h⟩ := h
        cases h
        rw [ih _ _ _ hloop k hkrest hkc]
        exact dictGet_erase_ne hkne

theorem legacyLoop_conflict : ∀ (keys : List String)
    (args : List (String × Value)),
    keys.Nodup → "config" ∉ keys → configWF args →
    (∃ k, k ∈ keys ∧ (legacyVal args k).truthy = true
        ∧ (nestedVal args k).isSome = true) →
    legacyLoop keys args = .error .sameKeyNestedError := by
  intro keys
  induction keys with
  | nil =>
    intro args _ _ _ hconf
    obtain ⟨k, hk, _⟩ := hconf
    exact absurd hk (List.not_mem_nil k)
  | cons key rest ih =>
    intro args hnd hc hwf hconf
    obtain ⟨k, hk, htr, hns⟩ := hconf
    have hckey : key ≠ "config" := fun he => hc (he ▸ List.mem_cons_self _ _)
    have hcrest : "config" ∉ rest := fun hm => hc (List.mem_cons_of_mem _ hm)
    have hknc : k ≠ "config" := fun he => hc (he ▸ hk)
    have hndr : rest.Nodup := (List.nodup_cons.mp hnd).2
    have hcfg1 : dictGet (dictErase args key) "config" = dictGet args "config" :=
      dictGet_erase_ne hckey
    unfold legacyLoop
    dsimp only
    by_cases hth : ((dictGet args key).getD Value.vnull).truthy = true
    · rw [if_pos hth]
      rcases hwf with hnone | ⟨m, hm⟩
      · exfalso
        have hv : nestedVal args k = none := by
          unfold nestedVal
          rw [hnone]
        rw [hv] at hns
        exact Bool.noConfusion hns
      · rw [hcfg1, hm]
        dsimp only [pyContainsKey, bind, Except.bind]
        by_cases hhit : (dictGet m key).isSome = true
        · rw [if_pos hhit]
        · rw [if_neg hhit]
          have hkk : k ≠ key := by
            intro he
            subst he
            have hv : nestedVal args k = dictGet m k := by
              unfold nestedVal
              rw [hm]
            rw [hv] at hns
            exact hhit hns
          have hkr : k ∈ rest := by
            rcases List.mem_cons.mp hk with he | hr
            · exact absurd he hkk
            · exact hr
          rw [ih (dictErase args key) hndr hcrest
            (configWF_erase hckey (Or.inr ⟨m, hm⟩))
            ⟨k, hkr, by rw [legacyVal_erase_ne (fun he => hkk he.symm)]; exact htr,
              by rw [nestedVal_erase hckey]; exact hns⟩]
    · rw [if_neg hth]
      have hkk : k ≠ key := by
        intro he
        subst he
        exact hth htr
      have hkr : k ∈ rest := by
        rcases List.mem_cons.mp hk with he | hr
        · exact absurd he hkk
        · exact hr
      rcases hwf with hnone | ⟨m, hm⟩
      · exfalso
        have hv : nestedVal args k = none := by
          unfold nestedVal
          rw [hnone]
        rw [hv] at hns
        exact Bool.noConfusion hns
      · rw [hcfg1, hm]
        dsimp only
        have hconf2 : (legacyVal (dictSet (dictErase args key) "config"
              (.vdict (dictErase m key))) k).truthy = true
            ∧ (nestedVal (dictSet (dictErase args key) "config"
              (.vdict (dictErase m key))) k).isSome = true := by
          constructor
          · unfold legacyVal
            rw [dictGet_set_ne (fun he => hknc he.symm),
                dictGet_erase_ne (fun he => hkk he.symm)]
            exact htr
          · rw [nestedVal_setConfig, dictGet_erase_ne (fun he => hkk he.symm)]
            have hv : nestedVal args k = dictGet m k := by
              unfold nestedVal
              rw [hm]
            rw [hv] at hns
            exact hns
        rw [ih (dictSet (dictErase args key) "config" (.vdict (dictErase m key)))
          hndr hcrest configWF_setConfig ⟨k, hkr, hconf2.1, hconf2.2⟩]
        rfl

theorem legacyLoop_spec : ∀ (keys : List String)
    (args : List (String × Value)),
    keys.Nodup → "config" ∉ keys → configWF args →
    (∀ k ∈ keys, ¬((legacyVal args k).truthy = true
        ∧ (nestedVal args k).isSome = true)) →
    ∃ cfg args', legacyLoop keys args = .ok (cfg, args')
      ∧ (∀ k ∈ keys, dictGet cfg k = some (pickValue args k))
      ∧ (∀ k, k ∉ keys → k ≠ "config" → dictGet args' k = dictGet args k)
      ∧ configWF args' := by
  intro keys
  induction keys with
  | nil =>
    intro args _ _ hwf _
    exact ⟨[], args, rfl, fun k hk => absurd hk (List.not_mem_nil k),
      fun _ _ _ => rfl, hwf⟩
  | cons key rest ih =>
    intro args hnd hc hwf hfree
    have hckey : key ≠ "config" := fun he => hc (he ▸ List.mem_cons_self _ _)
    have hcrest : "config" ∉ rest := fun hm => hc (List.mem_cons_of_mem _ hm)
    have hndr : rest.Nodup := (List.nodup_cons.mp hnd).2
    have hknr : key ∉ rest := (List.nodup_cons.mp hnd).1
    have hcfg1 : dictGet (dictErase args key) "config" = dictGet args "config" :=
      dictGet_erase_ne hckey
    have hfreeA1 : ∀ k ∈ rest,
        ¬((legacyVal (dictErase args key) k).truthy = true
          ∧ (nestedVal (dictErase args key) k).isSome = true) := by
      intro k hr
      have hkk : key ≠ k := fun he => hknr (he ▸ hr)
      rw [legacyVal_erase_ne hkk, nestedVal_erase hckey]
      exact hfree k (List.mem_cons_of_mem _ hr)
    unfold legacyLoop
    dsimp only
    by_cases hth : ((dictGet args key).getD Value.vnull).truthy = true
    · rw [if_pos hth]
      rcases hwf with hnone | ⟨m, hm⟩
      · rw [hcfg1, hnone]
        dsimp only
        obtain ⟨cfg', args', hloop, hpick, hpres, hwf'⟩ :=
          ih (dictErase args key) hndr hcrest
            (configWF_erase hckey (Or.inl hnone)) hfreeA1
        refine ⟨(key, (dictGet args key).getD .vnull) :: cfg', args', ?_, ?_, ?_, hwf'⟩
        · rw [hloop]
          rfl
        · intro k hk
          rcases List.mem_cons.mp hk with he | hr
          · subst he
            have hself : dictGet ((k, (dictGet args k).getD Value.vnull) :: cfg') k
                = some ((dictGet args k).getD Value.vnull) := by
              simp [dictGet]
            rw [hself]
            unfold pickValue legacyVal
            rw [if_pos hth]
          · have hkk : key ≠ k := fun he => hknr (he ▸ hr)
            have hstep : dictGet ((key, (dictGet args key).getD Value.vnull) :: cfg') k
                = dictGet cfg' k := by
              simp [dictGet, hkk]
            rw [hstep, hpick k hr, pickValue_erase hkk hckey]
        · intro k hk hkc
          have hkk : key ≠ k := fun he => hk (he ▸ List.mem_cons_self _ _)
          have hkr : k ∉ rest := fun hr => hk (List.mem_cons_of_mem _ hr)
          rw [hpres k hkr hkc, dictGet_erase_ne hkk]
      · rw [hcfg1, hm]
        dsimp only [pyContainsKey, bind, Except.bind]
        have hhit : (dictGet m key).isSome = false := by
          cases hjs : (dictGet m key).isSome
          · rfl
          · exact absurd ⟨hth, by unfold nestedVal; rw [hm]; exact hjs⟩
              (hfree key (List.mem_cons_self _ _))
        simp only [hhit, Bool.false_eq_true, if_false]
        obtain ⟨cfg', args', hloop, hpick, hpres, hwf'⟩ :=
          ih (dictErase args key) hndr hcrest
            (configWF_erase hckey (Or.inr ⟨m, hm⟩)) hfreeA1
        refine ⟨(key, (dictGet args key).getD .vnull) :: cfg', args', ?_, ?_, ?_, hwf'⟩
        · rw [hloop]
        · intro k hk
          rcases List.mem_cons.mp hk with he | hr
          · subst he
            have hself : dictGet ((k, (dictGet args k).getD Value.vnull) :: cfg') k
                = some ((dictGet args k).getD Value.vnull) := by
              simp [dictGet]
            rw [hself]
            unfold pickValue legacyVal
            rw [if_pos hth]
          · have hkk : key ≠ k := fun he => hknr (he ▸ hr)
            have hstep : dictGet ((key, (dictGet args key).getD Value.vnull) :: cfg') k
                = dictGet cfg' k := by
              simp [dictGet, hkk]
            rw [hstep, hpick k hr, pickValue_erase hkk hckey]
        · intro k hk hkc
          have hkk : key ≠ k := fun he => hk (he ▸ List.mem_cons_self _ _)
          have hkr : k ∉ rest := fun hr => hk (List.mem_cons_of_mem _ hr)
          rw [hpres k hkr hkc, dictGet_erase_ne hkk]
    · rw [if_neg hth]
      rcases hwf with hnone | ⟨m, hm⟩
      · rw [hcfg1, hnone]
        dsimp only
        obtain ⟨cfg', args', hloop, hpick, hpres, hwf'⟩ :=
          ih (dictErase args key) hndr hcrest
            (configWF_erase hckey (Or.inl hnone)) hfreeA1
        refine ⟨(key, (dictGet args key).getD .vnull) :: cfg', args', ?_, ?_, ?_, hwf'⟩
        · rw [hloop]
          rfl
        · intro k hk
          rcases List.mem_cons.mp hk with he | hr
          · subst he
            have hself : dictGet ((k, (dictGet args k).getD Value.vnull) :: cfg') k
                = some ((dictGet args k).getD Value.vnull) := by
              simp [dictGet]
            rw [hself]
            unfold pickValue legacyVal
            rw [if_neg hth, hnone]
          · have hkk : key ≠ k := fun he => hknr (he ▸ hr)
            have hstep : dictGet ((key, (dictGet args key).getD Value.vnull) :: cfg') k
                = dictGet cfg' k := by
              simp [dictGet, hkk]
            rw [hstep, hpick k hr, pickValue_erase hkk hckey]
        · intro k hk hkc
          have hkk : key ≠ k := fun he => hk (he ▸ List.mem_cons_self _ _)
          have hkr : k ∉ rest := fun hr => hk (List.mem_cons_of_mem _ hr)
          rw [hpres k hkr hkc, dictGet_erase_ne hkk]
      · rw [hcfg1, hm]
        dsimp only
        have hfreeA2 : ∀ k ∈ rest,
            ¬((legacyVal (dictSet (dictErase args key) "config"
                (.vdict (dictErase m key))) k).truthy = true
              ∧ (nestedVal (dictSet (dictErase args key) "config"
                (.vdict (dictErase m key))) k).isSome = true) := by
          intro k hr
          have hkk : key ≠ k := fun he => hknr (he ▸ hr)
          have hknc : k ≠ "config" := fun he => hcrest (he ▸ hr)
          have h1 : legacyVal (dictSet (dictErase args key) "config"
              (.vdict (dictErase m key))) k = legacyVal args k := by
            unfold legacyVal
            rw [dictGet_set_ne (fun he => hknc he.symm), dictGet_erase_ne hkk]
          have h2 : nestedVal (dictSet (dictErase args key) "config"
              (.vdict (dictErase m key))) k = nestedVal args k := by
            rw [nestedVal_setConfig, dictGet_erase_ne hkk]
            unfold nestedVal
            rw [hm]
          rw [h1, h2]
          exact hfree k (List.mem_cons_of_mem _ hr)
        obtain ⟨cfg', args', hloop, hpick, hpres, hwf'⟩ :=
          ih (dictSet (dictErase args key) "config" (.vdict (dictErase m key)))
            hndr hcrest configWF_setConfig hfreeA2
        refine ⟨(key, (dictGet m key).getD .vnull) :: cfg', args', ?_, ?_, ?_, hwf'⟩
        · rw [hloop]
          rfl
        · intro k hk
          rcases List.mem_cons.mp hk with he | hr
          · subst he
            have hself : dictGet ((k, (dictGet m k).getD Value.vnull) :: cfg') k
                = some ((dictGet m k).getD Value.vnull) := by
              simp [dictGet]
            rw [hself]
            unfold pickValue legacyVal
            rw [if_neg hth, hm]
          · have hkk : key ≠ k := fun he => hknr (he ▸ hr)
            have hknc : k ≠ "config" := fun he => hcrest (he ▸ hr)
            have hstep : dictGet ((key, (dictGet m key).getD Value.vnull) :: cfg') k
                = dictGet cfg' k := by
              simp [dictGet, hkk]
            rw [hstep, hpick k hr, pickValue_step hkk hknc hm]
        · intro k hk hkc
          have hkk : key ≠ k := fun he => hk (he ▸ List.mem_cons_self _ _)
          have hkr : k ∉ rest := fun hr => hk (List.mem_cons_of_mem _ hr)
          rw [hpres k hkr hkc, dictGet_set_ne (fun he => hkc he.symm),
              dictGet_erase_ne hkk]

theorem renderOne_errors (render : RenderFn) (value : Value) :
    (∃ v, renderOne render value = .ok v)
    ∨ renderOne render value = .error .customMacroPopulatingConfigValueError := by
  cases value with
  | vstr s =>
    unfold renderOne
    dsimp only
    cases hr : render s with
    | ok v => exact Or.inl ⟨v, rfl⟩
    | error e => exact Or.inr rfl
  | vnull => exact Or.inl ⟨_, rfl⟩
  | vbool b => exact Or.inl ⟨_, rfl⟩
  | vint n => exact Or.inl ⟨_, rfl⟩
  | vlist xs => exact Or.inl ⟨_, rfl⟩
  | vdict dm => exact Or.inl ⟨_, rfl⟩

theorem render_values_errors (render : RenderFn) : ∀ cfg,
    (∃ out, render_values render cfg = .ok out)
    ∨ render_values render cfg = .error .customMacroPopulatingConfigValueError := by
  intro cfg
  induction cfg with
  | nil => exact Or.inl ⟨[], rfl⟩
  | cons p rest ih =>
    obtain ⟨key, value⟩ := p
    unfold render_values
    rcases renderOne_errors render value with ⟨v, hv⟩ | herr
    · rw [hv]
      rcases ih with ⟨out, hout⟩ | he
      · rw [hout]
        cases v
        case vnull => exact Or.inl ⟨out, rfl⟩
        all_goals exact Or.inl ⟨_, rfl⟩
      · rw [he]
        exact Or.inr rfl
    · rw [herr]
      exact Or.inr rfl

theorem applyConfigBlock_errors (render : RenderFn)
    (cfg args : List (String × Value)) :
    (∃ out, applyConfigBlock render cfg args = .ok out)
    ∨ applyConfigBlock render cfg args
        = .error .customMacroPopulatingConfigValueError
    ∨ applyConfigBlock render cfg args = .error .pyTypeError := by
  unfold applyConfigBlock
  cases hg : dictGet args "config" with
  | none => exact Or.inl ⟨_, rfl⟩
  | some v =>
    cases v with
    | vdict m =>
      dsimp only
      rcases render_values_errors render m with ⟨out, hout⟩ | herr
      · rw [hout]
        exact Or.inl ⟨_, rfl⟩
      · rw [herr]
        exact Or.inr (Or.inl rfl)
    | vnull => exact Or.inr (Or.inr rfl)
    | vbool b => exact Or.inr (Or.inr rfl)
    | vint n => exact Or.inr (Or.inr rfl)
    | vstr s => exact Or.inr (Or.inr rfl)
    | vlist xs => exact Or.inr (Or.inr rfl)

theorem finishBuild_errors (target : Target) (pkg : String)
    (col ver : Option String) (ns : Option String) (nm : String)
    (cfg args : List (String × Value)) :
    (∃ b, finishBuild target pkg col ver ns nm cfg args = .ok b)
    ∨ finishBuild target pkg col ver ns nm cfg args = .error .badTypeError := by
  unfold finishBuild
  cases hdd : dictGet args "description" with
  | some d =>
    dsimp only
    cases hd : dictGet (dictErase args "description") "name" with
    | some nv => exact Or.inl ⟨_, rfl⟩
    | none =>
      by_cases ht : target = .other
      · subst ht
        exact Or.inr rfl
      · obtain ⟨x, y, hsyn⟩ :=
          get_synthetic_ok target ver ns nm (dictErase args "description") ht
        rw [hsyn]
        exact Or.inl ⟨_, rfl⟩
  | none =>
    dsimp only
    cases hd : dictGet args "name" with
    | some nv => exact Or.inl ⟨_, rfl⟩
    | none =>
      by_cases ht : target = .other
      · subst ht
        exact Or.inr rfl
      · obtain ⟨x, y, hsyn⟩ := get_synthetic_ok target ver ns nm args ht
        rw [hsyn]
        exact Or.inl ⟨_, rfl⟩

theorem build_model_str_ok (target : Target) (ver : Option String)
    (ht : target ≠ .other) : ∃ s, build_model_str target ver = .ok s := by
  cases target with
  | model n =>
    by_cases hv : versionTruthy ver = true
    · refine ⟨"\x7b\x7b get_where_subquery(" ++ ("ref(\x27" ++ n
          ++ "\x27, version=\x27" ++ ver.getD "" ++ "\x27)") ++ ") \x7d\x7d", ?_⟩
      simp [build_model_str, hv, bind, Except.bind]
    · refine ⟨"\x7b\x7b get_where_subquery(" ++ ("ref(\x27" ++ n
          ++ "\x27)") ++ ") \x7d\x7d", ?_⟩
      simp [build_model_str, hv, bind, Except.bind]
  | node n => exact ⟨_, rfl⟩
  | source sn tname => exact ⟨_, rfl⟩
  | other => exact absurd rfl ht

theorem build_eq_afterMatch (flags : Bool) (render : RenderFn) (decl : Value)
    (target : Target) (pkg : String) (col ver : Option String)
    (tn : String) (args0 : List (String × Value)) (post : Value) (ms : String)
    (ns : Option String) (nm : String)
    (hx : extract_test_args flags decl col = .ok (tn, args0, post))
    (hm : dictGet args0 "model" = none)
    (hms : build_model_str target ver = .ok ms)
    (hmt : matchTestName tn = some (ns, nm)) :
    buildTestBuilder flags render decl target pkg col ver
      = buildAfterMatch render target pkg col ver ns nm
          (dictSet args0 "model" (.vstr ms)) := by
  unfold buildTestBuilder
  rw [hx]
  simp only [bind, Except.bind]
  unfold buildCore
  simp only [hm, Option.isSome_none, Bool.false_eq_true, if_false]
  rw [hms]
  simp only [bind, Except.bind]
  rw [hmt]

theorem buildAfterMatch_conflict (render : RenderFn) (target : Target)
    (pkg : String) (col ver : Option String) (ns : Option String) (nm : String)
    (args : List (String × Value)) (hwf : configWF args)
    (hconf : ∃ k, k ∈ CONFIG_ARGS ∧ (legacyVal args k).truthy = true
        ∧ (nestedVal args k).isSome = true) :
    buildAfterMatch render target pkg col ver ns nm args
      = .error .sameKeyNestedError := by
  unfold buildAfterMatch processLegacyArgs
  rw [legacyLoop_conflict CONFIG_ARGS args (by decide) (by decide) hwf hconf]
  rfl

theorem buildAfterMatch_no_conflict (render : RenderFn) (target : Target)
    (pkg : String) (col ver : Option String) (ns : Option String) (nm : String)
    (args : List (String × Value)) (hwf : configWF args)
    (hfree : ∀ k ∈ CONFIG_ARGS, ¬((legacyVal args k).truthy = true
        ∧ (nestedVal args k).isSome = true)) :
    buildAfterMatch render target pkg col ver ns nm args
      ≠ .error .sameKeyNestedError := by
  obtain ⟨cfg, args', hloop, _, _, _⟩ :=
    legacyLoop_spec CONFIG_ARGS args (by decide) (by decide) hwf hfree
  rcases render_values_errors render cfg with ⟨out, hout⟩ | herr
  · have hpl : processLegacyArgs render args = .ok (out, args') := by
      unfold processLegacyArgs
      rw [hloop]
      simp only [bind, Except.bind]
      rw [hout]
    rcases applyConfigBlock_errors render out args' with ⟨o2, ho2⟩ | hcc | hpt
    · obtain ⟨cfg2, args2⟩ := o2
      rcases finishBuild_errors target pkg col ver ns nm cfg2 args2 with
        ⟨b, hb⟩ | hbt
      · have hall : buildAfterMatch render target pkg col ver ns nm args
            = .ok b := by
          unfold buildAfterMatch
          rw [hpl]
          simp only [bind, Except.bind]
          rw [ho2]
          simp only [bind, Except.bind]
          exact hb
        rw [hall]
        intro h
        exact Except.noConfusion h
      · have hall : buildAfterMatch render target pkg col ver ns nm args
            = .error .badTypeError := by
          unfold buildAfterMatch
          rw [hpl]
          simp only [bind, Except.bind]
          rw [ho2]
          simp only [bind, Except.bind]
          exact hbt
        rw [hall]
        intro h
        injection h with h2
        exact DbtError.noConfusion h2
    · have hall : buildAfterMatch render target pkg col ver ns nm args
          = .error .customMacroPopulatingConfigValueError := by
        unfold buildAfterMatch
        rw [hpl]
        simp only [bind, Except.bind]
        rw [hcc]
      rw [hall]
      intro h
      injection h with h2
      exact DbtError.noConfusion h2
    · have hall : buildAfterMatch render target pkg col ver ns nm args
          = .error .pyTypeError := by
        unfold buildAfterMatch
        rw [hpl]
        simp only [bind, Except.bind]
        rw [hpt]
      rw [hall]
      intro h
      injection h with h2
      exact DbtError.noConfusion h2
  · have hpl : processLegacyArgs render args
        = .error .customMacroPopulatingConfigValueError := by
      unfold processLegacyArgs
      rw [hloop]
      simp only [bind, Except.bind]
      rw [herr]
    have hall : buildAfterMatch render target pkg col ver ns nm args
        = .error .customMacroPopulatingConfigValueError := by
      unfold buildAfterMatch
      rw [hpl]
      rfl
    rw [hall]
    intro h
    injection h with h2
    exact DbtError.noConfusion h2

/-! ## C3: the duplicate-config-key contract -/

/-- C3: for each recognized config key, a truthy legacy value together with
the key present (with a truthy value) in the nested config block makes
construction fail with `SameKeyNestedError`; when no recognized key is
supplied in both locations the duplicate-config-key error is never raised;
and when the legacy value is falsy while the nested block holds the key, the
merged pre-render config takes the nested value. -/
theorem C3_duplicate_config_key (flags : Bool) (render : RenderFn)
    (decl : Value) (target : Target) (pkg : String) (col ver : Option String)
    (tn : String) (args0 : List (String × Value)) (post : Value)
    (hx : extract_test_args flags decl col = .ok (tn, args0, post))
    (hm : dictGet args0 "model" = none)
    (ht : target ≠ .other)
    (hp : (matchTestName tn).isSome = true)
    (hwf : configWF args0) :
    ((∃ k, k ∈ CONFIG_ARGS ∧ (legacyVal args0 k).truthy = true
        ∧ (∃ v, nestedVal args0 k = some v ∧ v.truthy = true)) →
      buildTestBuilder flags render decl target pkg col ver
        = .error .sameKeyNestedError)
    ∧ ((∀ k ∈ CONFIG_ARGS, ¬((legacyVal args0 k).truthy = true
        ∧ (nestedVal args0 k).isSome = true)) →
      buildTestBuilder flags render decl target pkg col ver
        ≠ .error .sameKeyNestedError)
    ∧ (∀ k ∈ CONFIG_ARGS, (legacyVal args0 k).truthy = false →
        ∀ v, nestedVal args0 k = some v →
        ∀ cfg args', legacyLoop CONFIG_ARGS args0 = .ok (cfg, args') →
          dictGet cfg k = some v) := by
  obtain ⟨ms, hms⟩ := build_model_str_ok target ver ht
  obtain ⟨pr, hmt⟩ := Option.isSome_iff_exists.mp hp
  obtain ⟨ns, nm⟩ := pr
  have hbuild := build_eq_afterMatch flags render decl target pkg col ver tn
    args0 post ms ns nm hx hm hms hmt
  have hkeys : ∀ k ∈ CONFIG_ARGS, "model" ≠ k := by decide
  have hmodelcfg : ∀ k ∈ CONFIG_ARGS,
      legacyVal (dictSet args0 "model" (.vstr ms)) k = legacyVal args0 k := by
    intro k hk
    unfold legacyVal
    rw [dictGet_set_ne (hkeys k hk)]
  have hcfgM : dictGet (dictSet args0 "model" (.vstr ms)) "config"
      = dictGet args0 "config" := dictGet_set_ne (by decide)
  have hnestedM : ∀ k, nestedVal (dictSet args0 "model" (.vstr ms)) k
      = nestedVal args0 k := by
    intro k
    unfold nestedVal
    rw [hcfgM]
  have hwfM : configWF (dictSet args0 "model" (.vstr ms)) := by
    unfold configWF
    rw [hcfgM]
    exact hwf
  refine ⟨?_, ?_, ?_⟩
  · rintro ⟨k, hk, htr, v, hv, hvt⟩
    rw [hbuild]
    apply buildAfterMatch_conflict _ _ _ _ _ _ _ _ hwfM
    refine ⟨k, hk, ?_, ?_⟩
    · rw [hmodelcfg k hk]
      exact htr
    · rw [hnestedM k, hv]
      rfl
  · intro hfree
    rw [hbuild]
    apply buildAfterMatch_no_conflict _ _ _ _ _ _ _ _ hwfM
    intro k hk
    rw [hmodelcfg k hk, hnestedM k]
    exact hfree k hk
  · intro k hk hfl v hv cfg args' hloop
    have hfree : ∀ k2 ∈ CONFIG_ARGS,
        ¬((legacyVal args0 k2).truthy = true
          ∧ (nestedVal args0 k2).isSome = true) := by
      intro k2 hk2 hcc
      have hcon := legacyLoop_conflict CONFIG_ARGS args0 (by decide) (by decide)
        hwf ⟨k2, hk2, hcc.1, hcc.2⟩
      rw [hcon] at hloop
      exact Except.noConfusion hloop
    obtain ⟨cfg2, args2, hloop2, hpick, _, _⟩ :=
      legacyLoop_spec CONFIG_ARGS args0 (by decide) (by decide) hwf hfree
    rw [hloop2] at hloop
    cases hloop
    obtain ⟨mm, hmm, hmmk⟩ : ∃ mm, dictGet args0 "config" = some (.vdict mm)
        ∧ dictGet mm k = some v := by
      unfold nestedVal at hv
      rcases hwf with hnone | ⟨mm, hmm⟩
      · rw [hnone] at hv
        exact Option.noConfusion hv
      · rw [hmm] at hv
        exact ⟨mm, hmm, hv⟩
    have hpv : pickValue args0 k = v := by
      unfold pickValue
      simp only [hfl, Bool.false_eq_true, if_false]
      rw [hmm]
      dsimp only
      rw [hmmk]
      rfl
    rw [hpick k hk, hpv]

/-- Closed instance of `C3_duplicate_config_key`: a duplicated `severity`
raises, a singly-supplied `severity` does not raise the duplicate error, and
a falsy-legacy plus nested `severity` takes the nested value. -/
theorem C3_witness :
    buildTestBuilder false idRender
        (.vdict [("unique", .vdict [("severity", .vstr "warn"),
          ("config", .vdict [("severity", .vstr "error")])])])
        (.node "orders") "pkg" none none = .error .sameKeyNestedError
    ∧ buildTestBuilder false idRender
        (.vdict [("unique", .vdict [("severity", .vstr "warn")])])
        (.node "orders") "pkg" none none ≠ .error .sameKeyNestedError
    ∧ (∀ cfg args', legacyLoop CONFIG_ARGS
          [("config", .vdict [("severity", .vstr "error")])] = .ok (cfg, args') →
        dictGet cfg "severity" = some (.vstr "error")) := by
  refine ⟨?_, ?_, ?_⟩
  · exact (C3_duplicate_config_key false idRender
      (.vdict [("unique", .vdict [("severity", .vstr "warn"),
        ("config", .vdict [("severity", .vstr "error")])])])
      (.node "orders") "pkg" none none "unique"
      [("severity", .vstr "warn"),
        ("config", .vdict [("severity", .vstr "error")])]
      (.vdict [("unique", .vdict [("severity", .vstr "warn"),
        ("config", .vdict [("severity", .vstr "error")])])])
      rfl rfl (fun h => Target.noConfusion h) (by decide)
      (Or.inr ⟨[("severity", .vstr "error")], rfl⟩)).1
      ⟨"severity", by decide, by decide, .vstr "error", rfl, by decide⟩
  · exact (C3_duplicate_config_key false idRender
      (.vdict [("unique", .vdict [("severity", .vstr "warn")])])
      (.node "orders") "pkg" none none "unique"
      [("severity", .vstr "warn")]
      (.vdict [("unique", .vdict [("severity", .vstr "warn")])])
      rfl rfl (fun h => Target.noConfusion h) (by decide)
      (Or.inl rfl)).2.1 (by decide)
  · exact (C3_duplicate_config_key false idRender
      (.vdict [("unique", .vdict [("config",
        .vdict [("severity", .vstr "error")])])])
      (.node "orders") "pkg" none none "unique"
      [("config", .vdict [("severity", .vstr "error")])]
      (.vdict [("unique", .vdict [("config",
        .vdict [("severity", .vstr "error")])])])
      rfl rfl (fun h => Target.noConfusion h) (by decide)
      (Or.inr ⟨[("severity", .vstr "error")], rfl⟩)).2.2
      "severity" (by decide) (by decide) (.vstr "error") rfl

/-! ## C7: the compiled-name length invariant -/

theorem applyConfigBlock_preserves (render : RenderFn)
    (cfg args cfgOut argsOut : List (String × Value))
    (h : applyConfigBlock render cfg args = .ok (cfgOut, argsOut))
    (k : String) (hk : k ≠ "config") :
    dictGet argsOut k = dictGet args k := by
  unfold applyConfigBlock at h
  cases hg : dictGet args "config" with
  | none =>
    rw [hg] at h
    cases h
    rfl
  | some v =>
    rw [hg] at h
    cases v with
    | vdict m =>
      dsimp only at h
      cases hr : render_values render m with
      | error e =>
        rw [hr] at h
        exact Except.noConfusion h
      | ok r =>
        rw [hr] at h
        cases h
        exact dictGet_erase_ne (fun he => hk he.symm)
    | vnull => exact Except.noConfusion h
    | vbool b => exact Except.noConfusion h
    | vint n => exact Except.noConfusion h
    | vstr s => exact Except.noConfusion h
    | vlist xs => exact Except.noConfusion h

theorem processLegacyArgs_preserves (render : RenderFn)
    (args cfgOut argsOut : List (String × Value))
    (h : processLegacyArgs render args = .ok (cfgOut, argsOut))
    (k : String) (hk1 : k ∉ CONFIG_ARGS) (hk2 : k ≠ "config") :
    dictGet argsOut k = dictGet args k := by
  unfold processLegacyArgs at h
  cases hl : legacyLoop CONFIG_ARGS args with
  | error e =>
    rw [hl] at h
    exact Except.noConfusion h
  | ok pr =>
    obtain ⟨cfg1, args1⟩ := pr
    rw [hl] at h
    simp only [bind, Except.bind] at h
    cases hr : render_values render cfg1 with
    | error e =>
      rw [hr] at h
      exact Except.noConfusion h
    | ok out =>
      rw [hr] at h
      cases h
      exact legacyLoop_preserves CONFIG_ARGS args cfg1 argsOut hl k hk1 hk2

/-- C7 (amended): whenever the compiled name is synthesized (no user-supplied
`name` argument), it is a non-empty string of strictly fewer than 64
characters; a user-supplied name is taken verbatim with no such guarantee. -/
theorem C7_compiled_name (flags : Bool) (render : RenderFn) (decl : Value)
    (target : Target) (pkg : String) (col ver : Option String)
    (tn : String) (args0 : List (String × Value)) (post : Value)
    (b : BuilderResult)
    (hx : extract_test_args flags decl col = .ok (tn, args0, post))
    (hname : dictGet args0 "name" = none)
    (hb : buildTestBuilder flags render decl target pkg col ver = .ok b) :
    ∃ s, b.compiledName = .vstr s ∧ s ≠ "" ∧ s.length < 64 := by
  cases hmm : dictGet args0 "model" with
  | some v =>
    exfalso
    have hmi : (dictGet args0 "model").isSome = true := by rw [hmm]; rfl
    have herr : buildTestBuilder flags render decl target pkg col ver
        = .error .testArgIncludesModelError := by
      simp [buildTestBuilder, hx, bind, Except.bind, buildCore, hmi]
    rw [herr] at hb
    exact Except.noConfusion hb
  | none =>
    have ht : target ≠ .other := by
      intro he
      subst he
      have herr : buildTestBuilder flags render decl .other pkg col ver
          = .error .unboundLocalError := by
        unfold buildTestBuilder
        rw [hx]
        simp only [bind, Except.bind]
        unfold buildCore
        simp only [hmm, Option.isSome_none, Bool.false_eq_true, if_false]
        rfl
      rw [herr] at hb
      exact Except.noConfusion hb
    obtain ⟨ms, hms⟩ := build_model_str_ok target ver ht
    cases hmt : matchTestName tn with
    | none =>
      exfalso
      have herr : buildTestBuilder flags render decl target pkg col ver
          = .error .unexpectedTestNamePatternError := by
        unfold buildTestBuilder
        rw [hx]
        simp only [bind, Except.bind]
        unfold buildCore
        simp only [hmm, Option.isSome_none, Bool.false_eq_true, if_false]
        rw [hms]
        simp only [bind, Except.bind]
        rw [hmt]
      rw [herr] at hb
      exact Except.noConfusion hb
    | some pr =>
      obtain ⟨ns, nm⟩ := pr
      have hbuild := build_eq_afterMatch flags render decl target pkg col ver
        tn args0 post ms ns nm hx hmm hms hmt
      rw [hbuild] at hb
      unfold buildAfterMatch at hb
      cases hpl : processLegacyArgs render (dictSet args0 "model" (.vstr ms)) with
      | error e =>
        rw [hpl] at hb
        exact Except.noConfusion hb
      | ok pr2 =>
        obtain ⟨cfg1, args1⟩ := pr2
        rw [hpl] at hb
        simp only [bind, Except.bind] at hb
        cases hac : applyConfigBlock render cfg1 args1 with
        | error e =>
          rw [hac] at hb
          exact Except.noConfusion hb
        | ok pr3 =>
          obtain ⟨cfg2, args2⟩ := pr3
          rw [hac] at hb
          simp only [bind, Except.bind] at hb
          have hn1 : dictGet args1 "name"
              = dictGet (dictSet args0 "model" (.vstr ms)) "name" :=
            processLegacyArgs_preserves render _ cfg1 args1 hpl "name"
              (by decide) (by decide)
          have hn2 : dictGet args2 "name" = dictGet args1 "name" :=
            applyConfigBlock_preserves render cfg1 args1 cfg2 args2 hac "name"
              (by decide)
          have hname2 : dictGet args2 "name" = none := by
            rw [hn2, hn1, dictGet_set_ne (by decide)]
            exact hname
          obtain ⟨b2, hb2, _, _, x, y, zs, hcomp, _⟩ :=
            finishBuild_compiled target pkg col ver ns nm cfg2 args2 ht hname2
          rw [hb2] at hb
          cases hb
          refine ⟨(synthesize_generic_test_names x y zs).1, hcomp, ?_,
            (synth_short_props x y zs).2⟩
          have h0 := (synth_short_props x y zs).1
          intro he
          rw [he] at h0
          simp at h0

/-- C7 counterexample: a user-supplied custom name is taken verbatim, so the
compiled name can reach 64 characters, violating the claimed invariant for
the user-supplied path. -/
theorem C7_counterexample :
    compiledOf (buildTestBuilder false idRender
        (.vdict [("unique",
          .vdict [("name", .vstr (String.mk (List.replicate 64 'a')))])])
        (.node "t") "p" none none)
      = some (.vstr (String.mk (List.replicate 64 'a')))
    ∧ (String.mk (List.replicate 64 'a')).length = 64
    ∧ ¬ (String.mk (List.replicate 64 'a')).length < 64 := by
  refine ⟨rfl, by decide, by decide⟩

/-- Closed instance of `C7_compiled_name`. -/
theorem C7_witness :
    ∃ s b, buildTestBuilder false idRender
        (.vdict [("unique", .vdict [("column_name", .vstr "id")])])
        (.node "orders") "pkg" none none = .ok b
      ∧ b.compiledName = .vstr s ∧ s ≠ "" ∧ s.length < 64 := by
  obtain ⟨b, hbe⟩ : ∃ b, buildTestBuilder false idRender
      (.vdict [("unique", .vdict [("column_name", .vstr "id")])])
      (.node "orders") "pkg" none none = .ok b := ⟨_, rfl⟩
  obtain ⟨s, h1, h2, h3⟩ := C7_compiled_name false idRender
    (.vdict [("unique", .vdict [("column_name", .vstr "id")])])
    (.node "orders") "pkg" none none "unique" [("column_name", .vstr "id")]
    (.vdict [("unique", .vdict [("column_name", .vstr "id")])]) b rfl rfl hbe
  exact ⟨s, b, hbe, h1, h2, h3⟩
